import Mathlib

/-!
Verification of the NuGet publishing plugin's validation-and-invocation core.

The Go source (`plugin.go`) is shallowly embedded below.  External
collaborators (the Go standard library's `net`, `net/url`, `path/filepath`
globbing, the process executor, and the plugin SDK's configuration parser)
are modelled either faithfully from their documented semantics or kept
abstract as function parameters.  Machine integers do not occur: IP bytes
are `Fin 256`, timeouts are `Int`.
-/

namespace NuGetPlugin

/-! ## String helpers (models of Go `strings` functions, at the level of
character lists) -/

/-- Whether `sub` occurs as a contiguous segment of `l` (substring search
on character lists). -/
def containsSeg (sub : List Char) : List Char → Bool
  | [] => List.isPrefixOf sub []
  | c :: cs => List.isPrefixOf sub (c :: cs) || containsSeg sub cs

/-- Model of Go `strings.Contains s sub`. -/
def strContains (s sub : String) : Bool :=
  containsSeg sub.data s.data

/-- Model of Go `strings.HasPrefix s pre`. -/
def strStartsWith (s pre : String) : Bool :=
  List.isPrefixOf pre.data s.data

/-- Model of Go `strings.HasSuffix s suf`. -/
def strEndsWith (s suf : String) : Bool :=
  List.isSuffixOf suf.data s.data

/-- Model of Go `strings.ToLower`: character-wise lowering. -/
def strToLower (s : String) : String :=
  String.mk (s.data.map Char.toLower)

/-- Model of Go `strings.TrimSpace`: drop leading and trailing
whitespace. -/
def strTrim (s : String) : String :=
  String.mk (((s.data.dropWhile Char.isWhitespace).reverse.dropWhile Char.isWhitespace).reverse)

/-- Model of Go `strings.TrimPrefix s "v"`: drop a single leading `v`. -/
def trimPrefixV (s : String) : String :=
  if strStartsWith s "v" then String.mk (s.data.drop 1) else s

/-- Whether the head character of a list is a dot. -/
def headIsDot : List Char → Bool
  | b :: _ => b == '.'
  | [] => false

/-- Whether the last character of a list is a dot. -/
def lastIsDot : List Char → Bool
  | [] => false
  | [a] => a == '.'
  | _ :: b :: r => lastIsDot (b :: r)

/-- Whether a character list has two consecutive dots somewhere. -/
def hasDD : List Char → Bool
  | a :: b :: r => ((a == '.') && (b == '.')) || hasDD (b :: r)
  | _ => false

/-! ## Model of Go `path/filepath.Clean` (Unix rules)

`filepath.Clean`'s documented algorithm: split the path into elements,
drop empty and `.` elements, resolve each `..` element against the
preceding element (or keep it, for relative paths, when there is nothing
left to pop; or drop it at the root of a rooted path), then rejoin with
single separators; the empty result becomes `.` (or `/` when rooted). -/

/-- Split a character list on `/` (model of splitting a path into its
elements; empty elements arise from doubled or trailing separators). -/
def splitSlash : List Char → List (List Char)
  | [] => [[]]
  | c :: cs =>
    if c == '/' then [] :: splitSlash cs
    else
      match splitSlash cs with
      | p :: ps => (c :: p) :: ps
      | [] => [[c]]

/-- Resolve path elements against a stack `acc` (held reversed):
empty and `.` elements are dropped, `..` pops the stack when possible,
stays (relative paths) or disappears (rooted paths) otherwise. -/
def cleanParts (rooted : Bool) (acc : List (List Char)) : List (List Char) → List (List Char)
  | [] => acc.reverse
  | p :: ps =>
    if p.isEmpty || p == ['.'] then cleanParts rooted acc ps
    else if p == ['.', '.'] then
      match acc with
      | [] => if rooted then cleanParts rooted [] ps else cleanParts rooted [['.', '.']] ps
      | a :: tl =>
        if a == ['.', '.'] then cleanParts rooted (['.', '.'] :: acc) ps
        else cleanParts rooted tl ps
    else cleanParts rooted (p :: acc) ps

/-- Join path elements back with single `/` separators. -/
def joinSlash : List (List Char) → List Char
  | [] => []
  | [p] => p
  | p :: ps => p ++ '/' :: joinSlash ps

/-- Whether a path is rooted (starts with a separator). -/
def headSlashChar : List Char → Bool
  | c :: _ => c == '/'
  | [] => false

/-- Model of Go `filepath.Clean` on Unix. -/
def filepathClean (s : String) : String :=
  let cs := s.data
  let rooted := headSlashChar cs
  let parts := cleanParts rooted [] (splitSlash cs)
  let out := joinSlash parts
  if rooted then String.mk ('/' :: out)
  else if out.isEmpty then "." else String.mk out

/-- Model of Go `strings.ReplaceAll path "*" "x"` (single-character
pattern, so a character map). -/
def replaceStars (s : String) : String :=
  String.mk (s.data.map fun c => if c == '*' then 'x' else c)

/-- Model of Go `filepath.IsAbs` on Unix. -/
def isAbs (p : String) : Bool :=
  strStartsWith p "/"

/-! ## `validatePackagePath` (traversal defense) -/

/-- Embedding of `validatePackagePath` from `plugin.go`.  `none` means the
pattern is accepted; `some err` carries the rejection message. -/
def validatePackagePath (path : String) : Option String :=
  if path = "" then some "package path cannot be empty"
  else if strContains path ".." then some "path traversal detected: cannot use '..'"
  else
    let cleanPath := replaceStars path
    let cleaned := filepathClean cleanPath
    if strStartsWith cleaned ".." || strContains cleaned "/.." then
      some "path traversal detected: cannot escape working directory"
    else none

/-! ## IP addresses and `isPrivateIP` (SSRF defense)

`net.IP` values from `net.LookupIP` are 4-byte IPv4 or 16-byte IPv6
addresses.  Every Go predicate used by the source normalizes 4-in-6
mapped addresses through `To4`, so the canonical model below represents
any IPv4(-mapped) address with the `v4` constructor. -/

/-- An IP address: IPv4 as four bytes, IPv6 as its sixteen bytes. -/
inductive IPAddr where
  | v4 (a b c d : Fin 256)
  | v6 (bytes : List (Fin 256))
deriving DecidableEq

/-- The sixteen bytes of `::1` (Go `net.IPv6loopback`). -/
def loopbackV6Bytes : List (Fin 256) :=
  [0, 0, 0, 0, 0, 0, 0, 0, 0, 0, 0, 0, 0, 0, 0, 1]

/-- The sixteen bytes of `fd00:ec2::254` (AWS IMDSv2 IPv6 endpoint). -/
def metadataV6Bytes : List (Fin 256) :=
  [253, 0, 14, 194, 0, 0, 0, 0, 0, 0, 0, 0, 0, 0, 2, 84]

/-- Model of Go `net.IP.IsLoopback`. -/
def IPAddr.isLoopback : IPAddr → Bool
  | .v4 a _ _ _ => a.val == 127
  | .v6 bs => bs = loopbackV6Bytes

/-- Model of Go `net.IP.IsLinkLocalUnicast`. -/
def IPAddr.isLinkLocalUnicast : IPAddr → Bool
  | .v4 a b _ _ => a.val == 169 && b.val == 254
  | .v6 (b0 :: b1 :: rest) => rest.length == 14 && b0.val == 254 && (b1.val &&& 192 == 128)
  | .v6 _ => false

/-- Model of Go `net.IP.IsLinkLocalMulticast`. -/
def IPAddr.isLinkLocalMulticast : IPAddr → Bool
  | .v4 a b c _ => a.val == 224 && b.val == 0 && c.val == 0
  | .v6 (b0 :: b1 :: rest) => rest.length == 14 && b0.val == 255 && (b1.val &&& 15 == 2)
  | .v6 _ => false

/-- Model of Go `net.IP.IsPrivate`. -/
def IPAddr.isPrivate : IPAddr → Bool
  | .v4 a b _ _ =>
    a.val == 10 || (a.val == 172 && (b.val &&& 240 == 16)) || (a.val == 192 && b.val == 168)
  | .v6 (b0 :: rest) => rest.length == 15 && (b0.val &&& 254 == 252)
  | .v6 _ => false

/-- Model of `net.IPNet.Contains` for an IPv4 CIDR block: bytewise mask
comparison against the network bytes (`n0..n3` network, `m0..m3` is the
mask produced by `net.ParseCIDR` for the block's prefix length); a
non-v4-mapped IPv6 address never lies in a 4-byte network. -/
def cidrContains4 (n0 n1 n2 n3 m0 m1 m2 m3 : Nat) : IPAddr → Bool
  | .v4 a b c d =>
    (a.val &&& m0 == n0) && (b.val &&& m1 == n1) && (c.val &&& m2 == n2) && (d.val &&& m3 == n3)
  | .v6 _ => false

/-- Model of `net.IPNet.Contains` for the /128 block `fd00:ec2::254/128`:
exact equality of the sixteen bytes; a 4-byte address never matches. -/
def cidrContainsV6Metadata : IPAddr → Bool
  | .v6 bs => bs = metadataV6Bytes
  | .v4 _ _ _ _ => false

/-- Embedding of `isPrivateIP` from `plugin.go`: the static CIDR table
(`net.ParseCIDR` of each literal is precomputed into network and mask
bytes), then the standard-library classification predicates. -/
def isPrivateIP (ip : IPAddr) : Bool :=
  cidrContains4 10 0 0 0 255 0 0 0 ip ||
  cidrContains4 172 16 0 0 255 240 0 0 ip ||
  cidrContains4 192 168 0 0 255 255 0 0 ip ||
  cidrContains4 127 0 0 0 255 0 0 0 ip ||
  cidrContains4 169 254 0 0 255 255 0 0 ip ||
  cidrContains4 0 0 0 0 255 0 0 0 ip ||
  cidrContains4 169 254 169 254 255 255 255 255 ip ||
  cidrContainsV6Metadata ip ||
  ip.isLoopback || ip.isLinkLocalUnicast || ip.isLinkLocalMulticast || ip.isPrivate

/-- The specification's description of the forbidden address set, stated
independently of the code's mask arithmetic: the RFC1918 ranges, the
loopback, link-local and all-zeros ranges, the two cloud-metadata
addresses, and everything the standard classification predicates flag. -/
def specForbidden : IPAddr → Prop
  | .v4 a b c d =>
    a.val = 10 ∨
    (a.val = 172 ∧ 16 ≤ b.val ∧ b.val ≤ 31) ∨
    (a.val = 192 ∧ b.val = 168) ∨
    a.val = 127 ∨
    (a.val = 169 ∧ b.val = 254) ∨
    a.val = 0 ∨
    (a.val = 169 ∧ b.val = 254 ∧ c.val = 169 ∧ d.val = 254) ∨
    (IPAddr.v4 a b c d).isLoopback = true ∨
    (IPAddr.v4 a b c d).isLinkLocalUnicast = true ∨
    (IPAddr.v4 a b c d).isLinkLocalMulticast = true ∨
    (IPAddr.v4 a b c d).isPrivate = true
  | .v6 bs =>
    bs = metadataV6Bytes ∨
    (IPAddr.v6 bs).isLoopback = true ∨
    (IPAddr.v6 bs).isLinkLocalUnicast = true ∨
    (IPAddr.v6 bs).isLinkLocalMulticast = true ∨
    (IPAddr.v6 bs).isPrivate = true

instance : DecidablePred specForbidden := by
  intro ip
  cases ip <;> (unfold specForbidden; infer_instance)

/-! ## `validateSourceURL` (SSRF defense)

`net/url.Parse` and `net.LookupIP` are external effects; they enter the
embedding as function parameters (`parse`, `lk`).  `URLParts` carries
what the source reads off the parsed URL: the scheme (lower-cased by
`url.Parse`) and `Hostname()` (brackets and port stripped). -/

deriving instance DecidableEq for Except

/-- The fields of a parsed URL that the source consults. -/
structure URLParts where
  scheme : String
  hostname : String
deriving DecidableEq

/-- Embedding of `validateSourceURL` from `plugin.go`.  `none` is
acceptance.  `parse` models `url.Parse` (error text in `Except.error`),
`lk` models `net.LookupIP`. -/
def validateSourceURL (parse : String → Except String URLParts)
    (lk : String → Except String (List IPAddr)) (rawURL : String) : Option String :=
  if rawURL = "" then some "source URL cannot be empty"
  else
    match parse rawURL with
    | .error e => some ("invalid URL: " ++ e)
    | .ok parsedURL =>
      let host := parsedURL.hostname
      let isLocalhost := (host == "localhost") || (host == "127.0.0.1") || (host == "::1")
      if parsedURL.scheme != "https" && !isLocalhost then
        some ("only HTTPS URLs are allowed (got " ++ parsedURL.scheme ++ ")")
      else if isLocalhost then none
      else
        match lk host with
        | .error e => some ("failed to resolve hostname: " ++ e)
        | .ok ips =>
          if ips.any isPrivateIP then some "URLs pointing to private networks are not allowed"
          else none

/-! ## Configuration -/

/-- A value of the raw configuration map (Go `map[string]any`): the three
element types the SDK parser recognizes for this plugin's keys. -/
inductive RawValue where
  | vstr (s : String)
  | vbool (b : Bool)
  | vint (i : Int)
deriving DecidableEq

/-- Modelled from the spec: the SDK helper `ConfigParser.GetString` (the
`relicta-plugin-sdk` is not part of this repository).  Resolution order:
explicit raw value when present and string-typed; else, when an
environment key is designated and the variable is set (Go `os.Getenv`
returns the empty string for an unset variable), its value; else the
default. -/
def getString (raw : String → Option RawValue) (env : String → String)
    (key envKey dflt : String) : String :=
  match raw key with
  | some (.vstr s) => s
  | _ => if envKey ≠ "" then (if env envKey ≠ "" then env envKey else dflt) else dflt

/-- Modelled from the spec: the SDK helper `ConfigParser.GetBool`:
explicit boolean-typed raw value, else the default. -/
def getBool (raw : String → Option RawValue) (key : String) (dflt : Bool) : Bool :=
  match raw key with
  | some (.vbool b) => b
  | _ => dflt

/-- Modelled from the spec: the SDK helper `ConfigParser.GetInt`:
explicit integer-typed raw value, else the default. -/
def getInt (raw : String → Option RawValue) (key : String) (dflt : Int) : Int :=
  match raw key with
  | some (.vint i) => i
  | _ => dflt

/-- Embedding of the `Config` struct from `plugin.go`. -/
structure Config where
  APIKey : String
  Source : String
  PackagePath : String
  SkipDuplicate : Bool
  Timeout : Int
deriving DecidableEq

/-- Constant `DefaultSource` from `plugin.go`. -/
def DefaultSource : String := "https://api.nuget.org/v3/index.json"

/-- Constant `DefaultPackagePath` from `plugin.go`. -/
def DefaultPackagePath : String := "*.nupkg"

/-- Constant `DefaultTimeout` from `plugin.go`. -/
def DefaultTimeout : Int := 300

/-- Embedding of `parseConfig` from `plugin.go`. -/
def parseConfig (raw : String → Option RawValue) (env : String → String) : Config :=
  { APIKey := getString raw env "api_key" "NUGET_API_KEY" ""
    Source := getString raw env "source" "" DefaultSource
    PackagePath := getString raw env "package_path" "" DefaultPackagePath
    SkipDuplicate := getBool raw "skip_duplicate" false
    Timeout := getInt raw "timeout" DefaultTimeout }

/-! ## `validateConfig`, `findPackages` -/

/-- Embedding of `validateConfig` from `plugin.go` (`none` = valid). -/
def validateConfig (parse : String → Except String URLParts)
    (lk : String → Except String (List IPAddr)) (cfg : Config) : Option String :=
  if cfg.APIKey = "" then
    some "API key is required (set api_key or NUGET_API_KEY environment variable)"
  else
    match validateSourceURL parse lk cfg.Source with
    | some e => some ("invalid source URL: " ++ e)
    | none =>
      match validatePackagePath cfg.PackagePath with
      | some e => some ("invalid package path: " ++ e)
      | none =>
        if cfg.Timeout ≤ 0 then some "timeout must be a positive integer" else none

/-- Embedding of `findPackages` from `plugin.go`.  `glob` models
`filepath.Glob` (its only failure is a malformed pattern). -/
def findPackages (glob : String → Except String (List String)) (pattern : String) :
    Except String (List String) :=
  match validatePackagePath pattern with
  | some err => .error err
  | none =>
    match glob pattern with
    | .error e => .error ("invalid glob pattern: " ++ e)
    | .ok ms => .ok (ms.filter fun m => strEndsWith (strToLower m) ".nupkg")

/-! ## Push orchestration -/

/-- A structured output value (Go `map[string]any` payloads used by the
source: strings, booleans and string lists). -/
inductive OutVal where
  | vs (s : String)
  | vb (b : Bool)
  | vlist (l : List String)
deriving DecidableEq

/-- Embedding of the SDK `plugin.ExecuteResponse` fields the source
populates. -/
structure ExecuteResponse where
  success : Bool
  message : String := ""
  error : String := ""
  outputs : List (String × OutVal) := []
deriving DecidableEq

/-- The full observable outcome of one (push) operation: the Go return
pair `(*ExecuteResponse, error)` modelled as `resp`/`fault`, plus
`calls`, the instrumented trace of argument lists handed to the external
`dotnet` executor, in invocation order. -/
structure ExecOutcome where
  resp : Option ExecuteResponse
  fault : Option String
  calls : List (List String)
deriving DecidableEq

/-- The result of one external command run (Go
`CommandExecutor.Run`: combined output plus error). -/
structure RunResult where
  output : String
  err : Option String

/-- The argument list built by `executePush` in `plugin.go`. -/
def buildPushArgs (cfg : Config) (packagePath : String) : List String :=
  ["nuget", "push", packagePath] ++ ["--api-key", cfg.APIKey] ++ ["--source", cfg.Source] ++
    (if cfg.SkipDuplicate then ["--skip-duplicate"] else []) ++ ["--timeout", toString cfg.Timeout]

/-- Embedding of `executePush` from `plugin.go`.  The executor `exec` is
abstract (the seam of §4.6); it receives the invocation index and the
argument list.  On failure the returned error text joins the trimmed
combined output with the failure reason. -/
def executePush (exec : Nat → List String → RunResult) (i : Nat) (cfg : Config)
    (packagePath : String) : Option String :=
  let args := buildPushArgs cfg packagePath
  let r := exec i args
  match r.err with
  | some reason => some (strTrim r.output ++ ": " ++ reason)
  | none => none

/-- The sequential push loop of `pushPackage` in `plugin.go`, with the
invocation index `i` and accumulator `pushedPackages` made explicit. -/
def pushLoop (exec : Nat → List String → RunResult) (cfg : Config) (version : String)
    (i : Nat) (pushedPackages : List String) : List String → ExecOutcome
  | [] =>
    { resp := some
        { success := true
          message := "Successfully pushed " ++ toString pushedPackages.length ++
            " package(s) to NuGet"
          outputs := [("packages", .vlist pushedPackages), ("source", .vs cfg.Source),
            ("version", .vs version)] }
      fault := none
      calls := [] }
  | pkg :: rest =>
    match executePush exec i cfg pkg with
    | some errMsg =>
      { resp := some
          { success := false
            error := "failed to push package " ++ pkg ++ ": " ++ errMsg
            outputs := [("pushed_packages", .vlist pushedPackages),
              ("failed_package", .vs pkg)] }
        fault := none
        calls := [buildPushArgs cfg pkg] }
    | none =>
      let out := pushLoop exec cfg version (i + 1) (pushedPackages ++ [pkg]) rest
      { out with calls := buildPushArgs cfg pkg :: out.calls }

/-- Embedding of `pushPackage` from `plugin.go`. -/
def pushPackage (parse : String → Except String URLParts)
    (lk : String → Except String (List IPAddr))
    (glob : String → Except String (List String))
    (exec : Nat → List String → RunResult)
    (cfg : Config) (releaseVersion : String) (dryRun : Bool) : ExecOutcome :=
  match validateConfig parse lk cfg with
  | some err =>
    { resp := some { success := false, error := "configuration validation failed: " ++ err }
      fault := none
      calls := [] }
  | none =>
    match findPackages glob cfg.PackagePath with
    | .error e =>
      { resp := some { success := false, error := "failed to find packages: " ++ e }
        fault := none
        calls := [] }
    | .ok packages =>
      if packages.length = 0 then
        { resp := some
            { success := false
              error := "no packages found matching pattern: " ++ cfg.PackagePath }
          fault := none
          calls := [] }
      else
        let version := trimPrefixV releaseVersion
        if dryRun then
          { resp := some
              { success := true
                message := "Would push " ++ toString packages.length ++ " package(s) to NuGet"
                outputs := [("packages", .vlist packages), ("source", .vs cfg.Source),
                  ("skip_duplicate", .vb cfg.SkipDuplicate), ("version", .vs version)] }
            fault := none
            calls := [] }
        else pushLoop exec cfg version 0 [] packages

/-- The hook this plugin acts on (`plugin.HookPostPublish`). -/
def hookPostPublish : String := "post-publish"

/-- Embedding of `Execute` from `plugin.go`. -/
def Execute (parse : String → Except String URLParts)
    (lk : String → Except String (List IPAddr))
    (glob : String → Except String (List String))
    (exec : Nat → List String → RunResult)
    (hook : String) (config : String → Option RawValue) (env : String → String)
    (releaseVersion : String) (dryRun : Bool) : ExecOutcome :=
  let cfg := parseConfig config env
  if hook = hookPostPublish then pushPackage parse lk glob exec cfg releaseVersion dryRun
  else
    { resp := some { success := true, message := "Hook " ++ hook ++ " not handled" }
      fault := none
      calls := [] }

/-! ## Standalone `Validate` -/

/-- A field-scoped validation error (SDK `ValidationBuilder.AddError`). -/
structure FieldError where
  field : String
  message : String
deriving DecidableEq

/-- Modelled from the spec: the SDK `ValidateResponse` built by
`ValidationBuilder.Build` — a validity flag that holds exactly when no
error was recorded, plus the ordered error collection. -/
structure ValidateResponse where
  valid : Bool
  errors : List FieldError
deriving DecidableEq

/-- Embedding of `Validate` from `plugin.go`: all three fields are
checked and their violations collected together; the credential is not
checked.  The second component models the Go `error` return. -/
def Validate (parse : String → Except String URLParts)
    (lk : String → Except String (List IPAddr))
    (config : String → Option RawValue) (env : String → String) :
    ValidateResponse × Option String :=
  let source := getString config env "source" "" DefaultSource
  let sourceErrs :=
    if source ≠ "" then
      match validateSourceURL parse lk source with
      | some err => [FieldError.mk "source" err]
      | none => []
    else []
  let packagePath := getString config env "package_path" "" DefaultPackagePath
  let pathErrs :=
    if packagePath ≠ "" then
      match validatePackagePath packagePath with
      | some err => [FieldError.mk "package_path" err]
      | none => []
    else []
  let timeout := getInt config "timeout" DefaultTimeout
  let timeoutErrs :=
    if timeout ≤ 0 then [FieldError.mk "timeout" "must be a positive integer"] else []
  let errs := sourceErrs ++ pathErrs ++ timeoutErrs
  ({ valid := errs.isEmpty, errors := errs }, none)

/-! ## Helper lemmas: substring search and double-dot tracking -/

lemma prefixOf_char_iff {l₁ l₂ : List Char} : List.isPrefixOf l₁ l₂ = true ↔ l₁ <+: l₂ :=
  List.isPrefixOf_iff_prefix

lemma containsSeg_iff {sub l : List Char} : containsSeg sub l = true ↔ sub <:+: l := by
  induction l with
  | nil =>
    rw [show containsSeg sub [] = List.isPrefixOf sub [] from rfl, prefixOf_char_iff]
    simp [List.prefix_nil, List.infix_nil]
  | cons c cs ih =>
    rw [List.infix_cons_iff, show containsSeg sub (c :: cs) =
      (List.isPrefixOf sub (c :: cs) || containsSeg sub cs) from rfl]
    simp only [Bool.or_eq_true, prefixOf_char_iff, ih]

lemma strContains_iff {s sub : String} : strContains s sub = true ↔ sub.data <:+: s.data :=
  containsSeg_iff

lemma seg_trans {a b c : List Char} (h1 : a <:+: b) (h2 : b <:+: c) : a <:+: c := by
  obtain ⟨s1, t1, hb⟩ := h1
  obtain ⟨s2, t2, hc⟩ := h2
  exact ⟨s2 ++ s1, t1 ++ t2, by rw [← hc, ← hb]; simp⟩

lemma seg_of_pre {a b : List Char} (h : a <+: b) : a <:+: b := by
  obtain ⟨t, ht⟩ := h
  exact ⟨[], t, by simpa using ht⟩

lemma headIsDot_iff {t : List Char} : headIsDot t = true ↔ ['.'] <+: t := by
  cases t with
  | nil => simp [headIsDot]
  | cons b r =>
    have hc : (['.'] <+: b :: r) ↔ ('.' = b ∧ ([] : List Char) <+: r) := List.cons_prefix_cons
    rw [show headIsDot (b :: r) = (b == '.') from rfl, hc]
    simp only [beq_iff_eq, List.nil_prefix, and_true]
    exact eq_comm

lemma hasDD_cons (a : Char) (l : List Char) :
    hasDD (a :: l) = (((a == '.') && headIsDot l) || hasDD l) := by
  cases l <;> simp [hasDD, headIsDot]

lemma hasDD_iff {l : List Char} : hasDD l = true ↔ ['.', '.'] <:+: l := by
  induction l with
  | nil => simp [hasDD]
  | cons a t ih =>
    rw [hasDD_cons, List.infix_cons_iff]
    have hpc : (['.', '.'] <+: a :: t) ↔ ('.' = a ∧ ['.'] <+: t) := List.cons_prefix_cons
    simp only [Bool.or_eq_true, Bool.and_eq_true, beq_iff_eq, ih, hpc, ← headIsDot_iff]
    constructor
    · rintro (⟨rfl, h⟩ | h)
      · exact Or.inl ⟨rfl, h⟩
      · exact Or.inr h
    · rintro (⟨rfl, h⟩ | h)
      · exact Or.inl ⟨rfl, h⟩
      · exact Or.inr h

lemma strContains_dd (s : String) : strContains s ".." = hasDD s.data := by
  have h1 : strContains s ".." = true ↔ ['.', '.'] <:+: s.data := strContains_iff
  have h2 : hasDD s.data = true ↔ ['.', '.'] <:+: s.data := hasDD_iff
  cases h3 : strContains s ".." with
  | true => exact (h2.mpr (h1.mp h3)).symm
  | false =>
    cases h4 : hasDD s.data with
    | true => exact absurd (h1.mpr (h2.mp h4)) (by simp [h3])
    | false => rfl

lemma hasDD_append (xs ys : List Char) :
    hasDD (xs ++ ys) = (hasDD xs || hasDD ys || (lastIsDot xs && headIsDot ys)) := by
  induction xs with
  | nil => simp [hasDD, lastIsDot]
  | cons a t ih =>
    cases t with
    | nil =>
      cases ys with
      | nil => simp [hasDD, lastIsDot, headIsDot]
      | cons b r =>
        show hasDD (a :: b :: r) = _
        rw [hasDD_cons]
        simp only [hasDD, lastIsDot, headIsDot]
        cases (a == '.') <;> cases (b == '.') <;> cases hasDD (b :: r) <;> rfl
    | cons b r =>
      show hasDD (a :: (b :: r) ++ ys) = _
      rw [List.cons_append, hasDD_cons, hasDD_cons, ih]
      have hhead : headIsDot ((b :: r) ++ ys) = headIsDot (b :: r) := rfl
      have hlast : lastIsDot (a :: b :: r) = lastIsDot (b :: r) := rfl
      rw [hhead, hlast]
      cases (a == '.') <;> cases headIsDot (b :: r) <;> cases hasDD (b :: r) <;>
        cases hasDD ys <;> cases lastIsDot (b :: r) <;> cases headIsDot ys <;> rfl

lemma hasDD_map {f : Char → Char} (hf : ∀ c, (f c == '.') = (c == '.')) :
    ∀ l : List Char, hasDD (l.map f) = hasDD l := by
  intro l
  induction l with
  | nil => rfl
  | cons a t ih =>
    rw [List.map_cons, hasDD_cons, hasDD_cons, ih, hf]
    have : headIsDot (t.map f) = headIsDot t := by
      cases t with
      | nil => rfl
      | cons b r => show (f b == '.') = (b == '.'); exact hf b
    rw [this]

lemma hasDD_replaceStars (s : String) : hasDD (replaceStars s).data = hasDD s.data := by
  show hasDD (s.data.map _) = _
  refine hasDD_map ?_ s.data
  intro c
  by_cases h : c = '*'
  · subst h; rfl
  · simp [h]

/-! ## Helper lemmas: `filepath.Clean` introduces no traversal token -/

lemma splitSlash_ne_nil : ∀ cs : List Char, splitSlash cs ≠ [] := by
  intro cs
  cases cs with
  | nil => simp [splitSlash]
  | cons c cs' =>
    rw [splitSlash]
    split
    · simp
    · split <;> simp

lemma splitSlash_headIsDot : ∀ (cs p : List Char) (ps : List (List Char)),
    splitSlash cs = p :: ps → headIsDot p = true → headIsDot cs = true := by
  intro cs p ps hsp hp
  cases cs with
  | nil =>
    rw [splitSlash] at hsp
    injection hsp with h1 h2
    subst h1
    exact absurd hp (by simp [headIsDot])
  | cons c cs' =>
    rw [splitSlash] at hsp
    by_cases hc : (c == '/') = true
    · rw [if_pos hc] at hsp
      cases hsp
      exact absurd hp (by simp [headIsDot])
    · rw [if_neg hc] at hsp
      cases hq : splitSlash cs' with
      | nil => exact absurd hq (splitSlash_ne_nil cs')
      | cons q qs =>
        rw [hq] at hsp
        cases hsp
        exact hp

lemma splitSlash_noDD : ∀ cs : List Char, hasDD cs = false →
    ∀ p ∈ splitSlash cs, hasDD p = false := by
  intro cs
  induction cs with
  | nil =>
    intro _ p hp
    rw [splitSlash] at hp
    simp at hp
    simp [hp, hasDD]
  | cons c cs' ih =>
    intro h p hp
    rw [hasDD_cons] at h
    have h1 : ((c == '.') && headIsDot cs') = false := by
      cases hx : ((c == '.') && headIsDot cs') <;> simp [hx] at h ⊢
    have h2 : hasDD cs' = false := by
      cases hx : hasDD cs' <;> simp [hx] at h ⊢
    rw [splitSlash] at hp
    by_cases hc : (c == '/') = true
    · rw [if_pos hc] at hp
      rcases List.mem_cons.mp hp with rfl | hmem
      · rfl
      · exact ih h2 p hmem
    · rw [if_neg hc] at hp
      cases hq : splitSlash cs' with
      | nil => exact absurd hq (splitSlash_ne_nil cs')
      | cons q qs =>
        rw [hq] at hp
        rcases List.mem_cons.mp hp with rfl | hmem
        · rw [hasDD_cons]
          have hqdd : hasDD q = false := ih h2 q (by rw [hq]; exact List.mem_cons_self q qs)
          have hqh : ((c == '.') && headIsDot q) = false := by
            by_cases hcd : (c == '.') = true
            · by_cases hqd : headIsDot q = true
              · have := splitSlash_headIsDot cs' q qs hq hqd
                rw [hcd, this] at h1
                simp at h1
              · simp [hqd]
            · simp [hcd]
          rw [hqh, hqdd]
          rfl
        · exact ih h2 p (by rw [hq]; exact List.mem_cons_of_mem q hmem)

lemma cleanParts_nil (rooted : Bool) (acc : List (List Char)) :
    cleanParts rooted acc [] = acc.reverse := rfl

lemma cleanParts_cons (rooted : Bool) (acc : List (List Char)) (p : List Char)
    (ps : List (List Char)) :
    cleanParts rooted acc (p :: ps) =
      (if p.isEmpty || p == ['.'] then cleanParts rooted acc ps
       else if p == ['.', '.'] then
         (match acc with
          | [] => if rooted then cleanParts rooted [] ps else cleanParts rooted [['.', '.']] ps
          | a :: tl =>
            if a == ['.', '.'] then cleanParts rooted (['.', '.'] :: acc) ps
            else cleanParts rooted tl ps)
       else cleanParts rooted (p :: acc) ps) := rfl

lemma cleanParts_noDD (rooted : Bool) : ∀ (ps acc : List (List Char)),
    (∀ p ∈ ps, hasDD p = false) → (∀ a ∈ acc, hasDD a = false) →
    ∀ q ∈ cleanParts rooted acc ps, hasDD q = false := by
  intro ps
  induction ps with
  | nil =>
    intro acc _ h2 q hq
    rw [cleanParts_nil] at hq
    exact h2 q (List.mem_reverse.mp hq)
  | cons p ps' ih =>
    intro acc h1 h2 q hq
    have hpdd : hasDD p = false := h1 p (List.mem_cons_self p ps')
    have htail : ∀ x ∈ ps', hasDD x = false := fun x hx => h1 x (List.mem_cons_of_mem p hx)
    have hp2 : (p == ['.', '.']) = false := by
      by_cases hp : p = ['.', '.']
      · subst hp
        exact absurd hpdd (by simp [hasDD])
      · simp [hp]
    rw [cleanParts_cons] at hq
    by_cases hskip : (p.isEmpty || p == ['.']) = true
    · rw [if_pos hskip] at hq
      exact ih acc htail h2 q hq
    · rw [if_neg hskip, hp2] at hq
      simp only [Bool.false_eq_true, if_false] at hq
      refine ih (p :: acc) htail ?_ q hq
      intro a ha
      rcases List.mem_cons.mp ha with rfl | ha'
      · exact hpdd
      · exact h2 a ha'

lemma joinSlash_noDD : ∀ ps : List (List Char), (∀ p ∈ ps, hasDD p = false) →
    hasDD (joinSlash ps) = false := by
  intro ps
  induction ps with
  | nil => intro _; rfl
  | cons p t ih =>
    intro h
    cases t with
    | nil => exact h p (List.mem_cons_self p [])
    | cons q r =>
      rw [show joinSlash (p :: q :: r) = p ++ '/' :: joinSlash (q :: r) from rfl,
        hasDD_append, hasDD_cons]
      have h1 : hasDD p = false := h p (List.mem_cons_self p (q :: r))
      have h2 : hasDD (joinSlash (q :: r)) = false :=
        ih fun x hx => h x (List.mem_cons_of_mem p hx)
      rw [h1, h2]
      simp [headIsDot]

lemma filepathClean_noDD (s : String) (h : hasDD s.data = false) :
    hasDD (filepathClean s).data = false := by
  have hparts : ∀ q ∈ cleanParts (headSlashChar s.data) [] (splitSlash s.data),
      hasDD q = false :=
    cleanParts_noDD _ _ _ (splitSlash_noDD s.data h) (by simp)
  have hout : hasDD (joinSlash (cleanParts (headSlashChar s.data) [] (splitSlash s.data))) = false :=
    joinSlash_noDD _ hparts
  rw [filepathClean]
  split
  · rw [show (String.mk ('/' :: joinSlash (cleanParts (headSlashChar s.data) []
      (splitSlash s.data)))).data = '/' :: joinSlash (cleanParts (headSlashChar s.data) []
      (splitSlash s.data)) from rfl, hasDD_cons, hout]
    simp [headIsDot]
  · split
    · rfl
    · exact hout

/-! ## Helper lemmas: `validatePackagePath` -/

lemma strStartsWith_dd_hasDD {s : String} (h : strStartsWith s ".." = true) :
    hasDD s.data = true := by
  have hp : ['.', '.'] <+: s.data := prefixOf_char_iff.mp h
  exact hasDD_iff.mpr (seg_of_pre hp)

lemma strContains_slashdd_hasDD {s : String} (h : strContains s "/.." = true) :
    hasDD s.data = true := by
  have hi : ['/', '.', '.'] <:+: s.data := strContains_iff.mp h
  have hdd : ['.', '.'] <:+: ['/', '.', '.'] := ⟨['/'], [], rfl⟩
  exact hasDD_iff.mpr (seg_trans hdd hi)

lemma vpp_accepts (path : String) (h0 : ¬ path = "") (h1 : strContains path ".." = false) :
    validatePackagePath path = none := by
  have hdd : hasDD path.data = false := by rw [← strContains_dd]; exact h1
  have hdd3 : hasDD (filepathClean (replaceStars path)).data = false :=
    filepathClean_noDD _ (by rw [hasDD_replaceStars]; exact hdd)
  have hsw : strStartsWith (filepathClean (replaceStars path)) ".." = false := by
    cases hx : strStartsWith (filepathClean (replaceStars path)) ".." with
    | false => rfl
    | true => exact absurd (strStartsWith_dd_hasDD hx) (by simp [hdd3])
  have hct : strContains (filepathClean (replaceStars path)) "/.." = false := by
    cases hx : strContains (filepathClean (replaceStars path)) "/.." with
    | false => rfl
    | true => exact absurd (strContains_slashdd_hasDD hx) (by simp [hdd3])
  rw [validatePackagePath, if_neg h0]
  rw [if_neg (show ¬ strContains path ".." = true by simp [h1])]
  show (if strStartsWith (filepathClean (replaceStars path)) ".." ||
      strContains (filepathClean (replaceStars path)) "/.." then
      some "path traversal detected: cannot escape working directory" else none) = none
  rw [hsw, hct]
  rfl

lemma vpp_none_then (path : String) (h : validatePackagePath path = none) :
    ¬ path = "" ∧ strContains path ".." = false := by
  by_cases h0 : path = ""
  · rw [validatePackagePath, if_pos h0] at h
    simp at h
  · refine ⟨h0, ?_⟩
    by_cases h1 : strContains path ".." = true
    · rw [validatePackagePath, if_neg h0, if_pos h1] at h
      simp at h
    · simpa using h1

/-- Claim C4: PathValidator rejects every pattern containing the substring
".." with an error message containing "traversal", and accepts every
absolute pattern that does not contain "..". -/
theorem claim_C4_pathValidator (pattern : String) :
    (strContains pattern ".." = true →
      validatePackagePath pattern = some "path traversal detected: cannot use '..'" ∧
      strContains "path traversal detected: cannot use '..'" "traversal" = true)
  ∧ (isAbs pattern = true → strContains pattern ".." = false →
      validatePackagePath pattern = none) := by
  constructor
  · intro h
    have h0 : ¬ pattern = "" := by
      intro he
      subst he
      exact absurd h (by decide)
    refine ⟨?_, by decide⟩
    rw [validatePackagePath, if_neg h0, if_pos h]
  · intro habs hnc
    have h0 : ¬ pattern = "" := by
      intro he
      subst he
      exact absurd habs (by decide)
    exact vpp_accepts pattern h0 hnc

theorem claim_C4_pathValidator_w :
    (validatePackagePath "../secrets" = some "path traversal detected: cannot use '..'" ∧
      strContains "path traversal detected: cannot use '..'" "traversal" = true) ∧
    validatePackagePath "/srv/pkgs/x.nupkg" = none :=
  ⟨(claim_C4_pathValidator "../secrets").1 (by decide),
   (claim_C4_pathValidator "/srv/pkgs/x.nupkg").2 (by decide) (by decide)⟩

/-- Claim C10: PathValidator's decision is exactly: reject iff the pattern
is empty or contains the substring "..".  Every non-empty pattern without
"..", relative or absolute, with or without wildcards, is accepted — the
secondary check on the wildcard-substituted cleaned path never rejects an
input the raw substring check did not already reject. -/
theorem claim_C10_pathValidator_exact (pattern : String) :
    validatePackagePath pattern = none ↔
      (¬ pattern = "" ∧ strContains pattern ".." = false) :=
  ⟨vpp_none_then pattern, fun h => vpp_accepts pattern h.1 h.2⟩

/-! ## Helper lemmas: IP classification -/

set_option maxRecDepth 4096 in
lemma band_zero_byte : ∀ x : Fin 256, x.val &&& 0 = 0 := by decide

set_option maxRecDepth 4096 in
lemma band255_byte : ∀ x : Fin 256, x.val &&& 255 = x.val := by decide

set_option maxRecDepth 4096 in
set_option maxHeartbeats 1000000 in
lemma band240_byte : ∀ x : Fin 256, (x.val &&& 240 = 16 ↔ (16 ≤ x.val ∧ x.val ≤ 31)) := by decide

/-- The code's mask-based forbidden-set test agrees pointwise with the
specification's enumeration of forbidden ranges and addresses. -/
lemma isPrivateIP_iff (ip : IPAddr) : isPrivateIP ip = true ↔ specForbidden ip := by
  cases ip <;>
    (rw [isPrivateIP]
     simp only [cidrContains4, cidrContainsV6Metadata, IPAddr.isLoopback,
       IPAddr.isLinkLocalUnicast, IPAddr.isLinkLocalMulticast, IPAddr.isPrivate,
       Bool.or_eq_true, Bool.and_eq_true, beq_iff_eq, decide_eq_true_eq, specForbidden,
       band_zero_byte, band255_byte, band240_byte, and_assoc, or_assoc, Bool.false_eq_true,
       or_false, false_or, and_true, true_and, eq_self_iff_true])

/-! ## Helper lemmas: `validateSourceURL` -/

lemma vsu_unfold_ok (parse : String → Except String URLParts)
    (lk : String → Except String (List IPAddr)) (rawURL : String) (u : URLParts)
    (hraw : ¬ rawURL = "") (hp : parse rawURL = Except.ok u) :
    validateSourceURL parse lk rawURL =
      (if u.scheme != "https" &&
          !((u.hostname == "localhost") || (u.hostname == "127.0.0.1") ||
            (u.hostname == "::1")) then
        some ("only HTTPS URLs are allowed (got " ++ u.scheme ++ ")")
      else if (u.hostname == "localhost") || (u.hostname == "127.0.0.1") ||
          (u.hostname == "::1") then none
      else
        match lk u.hostname with
        | .error e => some ("failed to resolve hostname: " ++ e)
        | .ok ips =>
          if ips.any isPrivateIP then some "URLs pointing to private networks are not allowed"
          else none) := by
  rw [validateSourceURL, if_neg hraw, hp]

lemma strContains_of_parts (s pre sub post : String)
    (h : s.data = pre.data ++ sub.data ++ post.data) : strContains s sub = true :=
  strContains_iff.mpr ⟨pre.data, post.data, h.symm⟩

/-- Claim C3: SourceURLValidator accepts every parseable URL whose
hostname is exactly `localhost`, `127.0.0.1` or `::1`, regardless of
scheme and independently of any IP resolution; and it rejects every
(parseable, non-empty) URL whose scheme is not `https` and whose hostname
is not one of those three, with an error message containing "HTTPS". -/
theorem claim_C3_loopback_scheme (parse : String → Except String URLParts)
    (rawURL : String) (u : URLParts)
    (hraw : ¬ rawURL = "") (hp : parse rawURL = Except.ok u) :
    ((u.hostname = "localhost" ∨ u.hostname = "127.0.0.1" ∨ u.hostname = "::1") →
      ∀ lk, validateSourceURL parse lk rawURL = none)
  ∧ (¬ (u.hostname = "localhost" ∨ u.hostname = "127.0.0.1" ∨ u.hostname = "::1") →
      ¬ u.scheme = "https" →
      ∀ lk, validateSourceURL parse lk rawURL =
          some ("only HTTPS URLs are allowed (got " ++ u.scheme ++ ")") ∧
        strContains ("only HTTPS URLs are allowed (got " ++ u.scheme ++ ")") "HTTPS" = true) := by
  constructor
  · intro hloc lk
    have hb : ((u.hostname == "localhost") || (u.hostname == "127.0.0.1") ||
        (u.hostname == "::1")) = true := by
      rcases hloc with h | h | h <;> simp [h]
    rw [vsu_unfold_ok parse lk rawURL u hraw hp, hb]
    simp
  · intro hnl hns lk
    have hb : ((u.hostname == "localhost") || (u.hostname == "127.0.0.1") ||
        (u.hostname == "::1")) = false := by
      simp only [not_or] at hnl
      simp [beq_eq_false_iff_ne, hnl.1, hnl.2.1, hnl.2.2]
    have hsch : (u.scheme != "https") = true := by
      simp [bne_iff_ne, hns]
    refine ⟨?_, ?_⟩
    · rw [vsu_unfold_ok parse lk rawURL u hraw hp, hb, hsch]
      simp
    · apply strContains_of_parts _ "only " "HTTPS"
        (" URLs are allowed (got " ++ u.scheme ++ ")")
      simp only [String.data_append]
      simp only [List.cons_append, List.nil_append, List.append_assoc]

theorem claim_C3_loopback_scheme_w :
    (validateSourceURL
        (fun s => if s = "http://localhost:5000/feed" then Except.ok ⟨"http", "localhost"⟩
          else Except.ok ⟨"http", "internal.example"⟩)
        (fun _ => Except.error "no resolver available") "http://localhost:5000/feed" = none) ∧
    validateSourceURL
        (fun s => if s = "http://localhost:5000/feed" then Except.ok ⟨"http", "localhost"⟩
          else Except.ok ⟨"http", "internal.example"⟩)
        (fun _ => Except.error "no resolver available") "http://internal.example/feed" =
      some ("only HTTPS URLs are allowed (got " ++ "http" ++ ")") :=
  ⟨(claim_C3_loopback_scheme _ "http://localhost:5000/feed" ⟨"http", "localhost"⟩
      (by decide) (by rfl)).1 (Or.inl rfl) _,
   ((claim_C3_loopback_scheme _ "http://internal.example/feed" ⟨"http", "internal.example"⟩
      (by decide) (by rfl)).2 (by decide) (by decide) _).1⟩

/-- Claim C2: for every HTTPS URL whose hostname is not a loopback name,
SourceURLValidator resolves the hostname — rejecting when resolution
fails — and accepts exactly when no resolved IP lies in the forbidden
set: the RFC1918 ranges 10/8, 172.16/12, 192.168/16, the loopback range
127/8, the link-local range 169.254/16, the all-zeros range 0/8, the
cloud-metadata address 169.254.169.254, the IPv6 metadata address, or any
address classified loopback, link-local or private by the standard
classification rules. -/
theorem claim_C2_ssrf (parse : String → Except String URLParts)
    (lk : String → Except String (List IPAddr)) (rawURL : String) (u : URLParts)
    (hraw : ¬ rawURL = "") (hp : parse rawURL = Except.ok u)
    (hs : u.scheme = "https")
    (hnl : ¬ (u.hostname = "localhost" ∨ u.hostname = "127.0.0.1" ∨ u.hostname = "::1")) :
    (∀ e, lk u.hostname = Except.error e →
      validateSourceURL parse lk rawURL = some ("failed to resolve hostname: " ++ e))
  ∧ (∀ ips, lk u.hostname = Except.ok ips →
      (validateSourceURL parse lk rawURL = none ↔ ∀ ip ∈ ips, ¬ specForbidden ip)) := by
  have hb : ((u.hostname == "localhost") || (u.hostname == "127.0.0.1") ||
      (u.hostname == "::1")) = false := by
    simp only [not_or] at hnl
    simp [beq_eq_false_iff_ne, hnl.1, hnl.2.1, hnl.2.2]
  have heq : validateSourceURL parse lk rawURL =
      (match lk u.hostname with
       | .error e => some ("failed to resolve hostname: " ++ e)
       | .ok ips =>
         if ips.any isPrivateIP then some "URLs pointing to private networks are not allowed"
         else none) := by
    rw [vsu_unfold_ok parse lk rawURL u hraw hp, hb, hs]
    simp
  constructor
  · intro e he
    rw [heq, he]
  · intro ips hips
    rw [heq, hips]
    show (if ips.any isPrivateIP then
        some "URLs pointing to private networks are not allowed" else none) = none ↔ _
    constructor
    · intro h ip hip hbad
      have hane : ips.any isPrivateIP = true :=
        List.any_eq_true.mpr ⟨ip, hip, (isPrivateIP_iff ip).mpr hbad⟩
      rw [if_pos hane] at h
      simp at h
    · intro h
      have hane : ips.any isPrivateIP = false := by
        cases hx : ips.any isPrivateIP with
        | false => rfl
        | true =>
          obtain ⟨ip, hip, hpriv⟩ := List.any_eq_true.mp hx
          exact absurd ((isPrivateIP_iff ip).mp hpriv) (h ip hip)
      rw [hane]
      rfl

theorem claim_C2_ssrf_w :
    (validateSourceURL (fun _ => Except.ok ⟨"https", "feed.example"⟩)
      (fun _ => Except.ok [IPAddr.v4 93 184 216 34]) "https://feed.example/v3" = none) ∧
    validateSourceURL (fun _ => Except.ok ⟨"https", "rebind.example"⟩)
      (fun _ => Except.ok [IPAddr.v4 169 254 169 254]) "https://rebind.example/v3" ≠ none :=
  ⟨((claim_C2_ssrf _ _ "https://feed.example/v3" ⟨"https", "feed.example"⟩
      (by decide) (by rfl) rfl (by decide)).2 [IPAddr.v4 93 184 216 34] rfl).mpr (by decide),
   fun h =>
    absurd (((claim_C2_ssrf _ _ "https://rebind.example/v3" ⟨"https", "rebind.example"⟩
      (by decide) (by rfl) rfl (by decide)).2 [IPAddr.v4 169 254 169 254] rfl).mp h)
      (by decide)⟩

/-! ## Helper lemmas: configuration resolution -/

lemma getString_not_str (raw : String → Option RawValue) (env : String → String)
    (key envKey dflt : String) (h : ∀ s, ¬ raw key = some (RawValue.vstr s)) :
    getString raw env key envKey dflt =
      if envKey ≠ "" then (if env envKey ≠ "" then env envKey else dflt) else dflt := by
  rw [getString]
  cases hr : raw key with
  | none => rfl
  | some v =>
    cases v with
    | vstr s => exact absurd hr (h s)
    | vbool b => rfl
    | vint i => rfl

lemma getBool_not_bool (raw : String → Option RawValue) (key : String) (dflt : Bool)
    (h : ∀ b, ¬ raw key = some (RawValue.vbool b)) : getBool raw key dflt = dflt := by
  rw [getBool]
  cases hr : raw key with
  | none => rfl
  | some v =>
    cases v with
    | vstr s => rfl
    | vbool b => exact absurd hr (h b)
    | vint i => rfl

lemma getInt_not_int (raw : String → Option RawValue) (key : String) (dflt : Int)
    (h : ∀ i, ¬ raw key = some (RawValue.vint i)) : getInt raw key dflt = dflt := by
  rw [getInt]
  cases hr : raw key with
  | none => rfl
  | some v =>
    cases v with
    | vstr s => rfl
    | vbool b => rfl
    | vint i => exact absurd hr (h i)

/-- Claim C7: ConfigResolver never fails: each field takes the explicit,
correctly-typed raw value when present; the credential field (only) falls
back to the `NUGET_API_KEY` environment variable; otherwise the fixed
defaults apply — the public registry index URL, the `*.nupkg` pattern,
timeout 300, skip-duplicate false.  Resolving the empty map with
environment credential `env-key` yields apiKey `env-key`, the default
source, and timeout 300. -/
theorem claim_C7_configResolver (raw : String → Option RawValue) (env : String → String) :
    ((∀ s, raw "api_key" = some (RawValue.vstr s) → (parseConfig raw env).APIKey = s)
  ∧ ((∀ s, ¬ raw "api_key" = some (RawValue.vstr s)) → ¬ env "NUGET_API_KEY" = "" →
      (parseConfig raw env).APIKey = env "NUGET_API_KEY")
  ∧ ((∀ s, ¬ raw "api_key" = some (RawValue.vstr s)) → env "NUGET_API_KEY" = "" →
      (parseConfig raw env).APIKey = "")
  ∧ (∀ s, raw "source" = some (RawValue.vstr s) → (parseConfig raw env).Source = s)
  ∧ ((∀ s, ¬ raw "source" = some (RawValue.vstr s)) →
      (parseConfig raw env).Source = DefaultSource)
  ∧ (∀ s, raw "package_path" = some (RawValue.vstr s) → (parseConfig raw env).PackagePath = s)
  ∧ ((∀ s, ¬ raw "package_path" = some (RawValue.vstr s)) →
      (parseConfig raw env).PackagePath = DefaultPackagePath)
  ∧ (∀ b, raw "skip_duplicate" = some (RawValue.vbool b) →
      (parseConfig raw env).SkipDuplicate = b)
  ∧ ((∀ b, ¬ raw "skip_duplicate" = some (RawValue.vbool b)) →
      (parseConfig raw env).SkipDuplicate = false)
  ∧ (∀ i, raw "timeout" = some (RawValue.vint i) → (parseConfig raw env).Timeout = i)
  ∧ ((∀ i, ¬ raw "timeout" = some (RawValue.vint i)) →
      (parseConfig raw env).Timeout = DefaultTimeout))
  ∧ parseConfig (fun _ => none) (fun k => if k = "NUGET_API_KEY" then "env-key" else "") =
      { APIKey := "env-key", Source := DefaultSource, PackagePath := "*.nupkg",
        SkipDuplicate := false, Timeout := 300 } := by
  refine ⟨⟨?_, ?_, ?_, ?_, ?_, ?_, ?_, ?_, ?_, ?_, ?_⟩, by decide⟩
  · intro s h
    show getString raw env "api_key" "NUGET_API_KEY" "" = s
    rw [getString, h]
  · intro h he
    show getString raw env "api_key" "NUGET_API_KEY" "" = env "NUGET_API_KEY"
    rw [getString_not_str raw env _ _ _ h]
    simp [he]
  · intro h he
    show getString raw env "api_key" "NUGET_API_KEY" "" = ""
    rw [getString_not_str raw env _ _ _ h]
    simp [he]
  · intro s h
    show getString raw env "source" "" DefaultSource = s
    rw [getString, h]
  · intro h
    show getString raw env "source" "" DefaultSource = DefaultSource
    rw [getString_not_str raw env _ _ _ h]
    simp
  · intro s h
    show getString raw env "package_path" "" DefaultPackagePath = s
    rw [getString, h]
  · intro h
    show getString raw env "package_path" "" DefaultPackagePath = DefaultPackagePath
    rw [getString_not_str raw env _ _ _ h]
    simp
  · intro b h
    show getBool raw "skip_duplicate" false = b
    rw [getBool, h]
  · intro h
    show getBool raw "skip_duplicate" false = false
    exact getBool_not_bool raw _ _ h
  · intro i h
    show getInt raw "timeout" DefaultTimeout = i
    rw [getInt, h]
  · intro h
    show getInt raw "timeout" DefaultTimeout = DefaultTimeout
    exact getInt_not_int raw _ _ h

theorem claim_C7_configResolver_w :
    (parseConfig (fun k => if k = "api_key" then some (RawValue.vstr "explicit-key") else none)
      (fun _ => "")).APIKey = "explicit-key" :=
  (claim_C7_configResolver
      (fun k => if k = "api_key" then some (RawValue.vstr "explicit-key") else none)
      (fun _ => "")).1.1 "explicit-key" (by decide)

/-- Claim C8: the standalone validate entry point does not halt at the
first violation: the source URL, package path, and timeout are all
checked and each violated field contributes its own field-scoped error to
the one result; a non-positive timeout always yields the error
"must be a positive integer"; and an absent credential never produces an
error — every reported field is source, package_path or timeout. -/
theorem claim_C8_validate (parse : String → Except String URLParts)
    (lk : String → Except String (List IPAddr))
    (config : String → Option RawValue) (env : String → String) :
    (Validate parse lk config env).2 = none
  ∧ (getInt config "timeout" DefaultTimeout ≤ 0 →
      FieldError.mk "timeout" "must be a positive integer" ∈
        (Validate parse lk config env).1.errors ∧
      strContains "must be a positive integer" "positive integer" = true)
  ∧ (∀ e ∈ (Validate parse lk config env).1.errors,
      e.field = "source" ∨ e.field = "package_path" ∨ e.field = "timeout")
  ∧ (∀ err, validateSourceURL parse lk (getString config env "source" "" DefaultSource) =
        some err → ¬ getString config env "source" "" DefaultSource = "" →
      FieldError.mk "source" err ∈ (Validate parse lk config env).1.errors)
  ∧ (∀ err, validatePackagePath (getString config env "package_path" "" DefaultPackagePath) =
        some err → ¬ getString config env "package_path" "" DefaultPackagePath = "" →
      FieldError.mk "package_path" err ∈ (Validate parse lk config env).1.errors) := by
  have heq : (Validate parse lk config env).1.errors =
      ((if getString config env "source" "" DefaultSource ≠ "" then
        match validateSourceURL parse lk (getString config env "source" "" DefaultSource) with
        | some err => [FieldError.mk "source" err]
        | none => []
      else []) ++
      (if getString config env "package_path" "" DefaultPackagePath ≠ "" then
        match validatePackagePath (getString config env "package_path" "" DefaultPackagePath) with
        | some err => [FieldError.mk "package_path" err]
        | none => []
      else [])) ++
      (if getInt config "timeout" DefaultTimeout ≤ 0 then
        [FieldError.mk "timeout" "must be a positive integer"] else []) := rfl
  refine ⟨rfl, ?_, ?_, ?_, ?_⟩
  · intro ht
    refine ⟨?_, by decide⟩
    rw [heq]
    simp [List.mem_append, ht]
  · intro e he
    rw [heq] at he
    rcases List.mem_append.mp he with h12 | h3
    · rcases List.mem_append.mp h12 with h1 | h2
      · left
        revert h1
        split
        · split
          · intro h1
            simp at h1
            subst h1
            rfl
          · intro h1
            simp at h1
        · intro h1
          simp at h1
      · right
        left
        revert h2
        split
        · split
          · intro h2
            simp at h2
            subst h2
            rfl
          · intro h2
            simp at h2
        · intro h2
          simp at h2
    · right
      right
      revert h3
      split
      · intro h3
        simp at h3
        subst h3
        rfl
      · intro h3
        simp at h3
  · intro err hv hne
    rw [heq]
    simp [List.mem_append, hne, hv]
  · intro err hv hne
    rw [heq]
    simp [List.mem_append, hne, hv]

theorem claim_C8_validate_w :
    FieldError.mk "source" ("only HTTPS URLs are allowed (got " ++ "http" ++ ")") ∈
      (Validate (fun _ => Except.ok ⟨"http", "internal.host"⟩) (fun _ => Except.error "nope")
        (fun k => if k = "source" then some (RawValue.vstr "http://internal.host/x")
          else if k = "package_path" then some (RawValue.vstr "../escape")
          else if k = "timeout" then some (RawValue.vint (-1)) else none)
        (fun _ => "")).1.errors ∧
    FieldError.mk "package_path" "path traversal detected: cannot use '..'" ∈
      (Validate (fun _ => Except.ok ⟨"http", "internal.host"⟩) (fun _ => Except.error "nope")
        (fun k => if k = "source" then some (RawValue.vstr "http://internal.host/x")
          else if k = "package_path" then some (RawValue.vstr "../escape")
          else if k = "timeout" then some (RawValue.vint (-1)) else none)
        (fun _ => "")).1.errors ∧
    FieldError.mk "timeout" "must be a positive integer" ∈
      (Validate (fun _ => Except.ok ⟨"http", "internal.host"⟩) (fun _ => Except.error "nope")
        (fun k => if k = "source" then some (RawValue.vstr "http://internal.host/x")
          else if k = "package_path" then some (RawValue.vstr "../escape")
          else if k = "timeout" then some (RawValue.vint (-1)) else none)
        (fun _ => "")).1.errors := by
  have h := claim_C8_validate (fun _ => Except.ok ⟨"http", "internal.host"⟩)
    (fun _ => Except.error "nope")
    (fun k => if k = "source" then some (RawValue.vstr "http://internal.host/x")
      else if k = "package_path" then some (RawValue.vstr "../escape")
      else if k = "timeout" then some (RawValue.vint (-1)) else none)
    (fun _ => "")
  exact ⟨h.2.2.2.1 _ (by decide) (by decide), h.2.2.2.2 _ (by decide) (by decide),
    (h.2.1 (by decide)).1⟩

/-! ## Helper lemmas: the push loop -/

lemma pushLoop_nil (exec : Nat → List String → RunResult) (cfg : Config) (version : String)
    (i : Nat) (pushed : List String) :
    pushLoop exec cfg version i pushed [] =
      { resp := some
          { success := true
            message := "Successfully pushed " ++ toString pushed.length ++ " package(s) to NuGet"
            outputs := [("packages", OutVal.vlist pushed), ("source", OutVal.vs cfg.Source),
              ("version", OutVal.vs version)] }
        fault := none
        calls := [] } := rfl

lemma pushLoop_cons (exec : Nat → List String → RunResult) (cfg : Config) (version : String)
    (i : Nat) (pushed : List String) (pkg : String) (rest : List String) :
    pushLoop exec cfg version i pushed (pkg :: rest) =
      (match executePush exec i cfg pkg with
       | some errMsg =>
         { resp := some
             { success := false
               error := "failed to push package " ++ pkg ++ ": " ++ errMsg
               outputs := [("pushed_packages", OutVal.vlist pushed),
                 ("failed_package", OutVal.vs pkg)] }
           fault := none
           calls := [buildPushArgs cfg pkg] }
       | none =>
         { pushLoop exec cfg version (i + 1) (pushed ++ [pkg]) rest with
           calls := buildPushArgs cfg pkg ::
             (pushLoop exec cfg version (i + 1) (pushed ++ [pkg]) rest).calls }) := rfl

lemma executePush_ok (exec : Nat → List String → RunResult) (i : Nat) (cfg : Config)
    (pkg : String) (h : (exec i (buildPushArgs cfg pkg)).err = none) :
    executePush exec i cfg pkg = none := by
  show (match (exec i (buildPushArgs cfg pkg)).err with
        | some reason => some (strTrim (exec i (buildPushArgs cfg pkg)).output ++ ": " ++ reason)
        | none => none) = none
  rw [h]

lemma executePush_fail (exec : Nat → List String → RunResult) (i : Nat) (cfg : Config)
    (pkg reason : String) (h : (exec i (buildPushArgs cfg pkg)).err = some reason) :
    executePush exec i cfg pkg =
      some (strTrim (exec i (buildPushArgs cfg pkg)).output ++ ": " ++ reason) := by
  show (match (exec i (buildPushArgs cfg pkg)).err with
        | some reason => some (strTrim (exec i (buildPushArgs cfg pkg)).output ++ ": " ++ reason)
        | none => none) = _
  rw [h]

lemma pushLoop_ok (exec : Nat → List String → RunResult) (cfg : Config) (version : String) :
    ∀ (pkgs : List String) (i : Nat) (pushed : List String),
    (∀ j (hj : j < pkgs.length), (exec (i + j) (buildPushArgs cfg (pkgs.get ⟨j, hj⟩))).err = none) →
    pushLoop exec cfg version i pushed pkgs =
      { resp := some
          { success := true
            message := "Successfully pushed " ++ toString (pushed ++ pkgs).length ++
              " package(s) to NuGet"
            outputs := [("packages", OutVal.vlist (pushed ++ pkgs)),
              ("source", OutVal.vs cfg.Source), ("version", OutVal.vs version)] }
        fault := none
        calls := pkgs.map (buildPushArgs cfg) } := by
  intro pkgs
  induction pkgs with
  | nil =>
    intro i pushed _
    rw [pushLoop_nil]
    simp only [List.append_nil, List.map_nil]
  | cons pkg rest ih =>
    intro i pushed h
    have h0 : (exec i (buildPushArgs cfg pkg)).err = none := by
      have := h 0 (by simp)
      simpa using this
    rw [pushLoop_cons, executePush_ok exec i cfg pkg h0]
    have h' : ∀ j (hj : j < rest.length),
        (exec ((i + 1) + j) (buildPushArgs cfg (rest.get ⟨j, hj⟩))).err = none := by
      intro j hj
      have hx := h (j + 1) (by simpa using Nat.succ_lt_succ hj)
      rw [show i + (j + 1) = (i + 1) + j from by omega] at hx
      simpa using hx
    rw [ih (i + 1) (pushed ++ [pkg]) h']
    simp [List.append_assoc]

lemma pushLoop_fail (exec : Nat → List String → RunResult) (cfg : Config) (version : String) :
    ∀ (pkgs : List String) (i : Nat) (pushed : List String) (k : Nat) (hk : k < pkgs.length)
      (reason : String),
    (∀ j (hj : j < k),
      (exec (i + j) (buildPushArgs cfg (pkgs.get ⟨j, Nat.lt_trans hj hk⟩))).err = none) →
    (exec (i + k) (buildPushArgs cfg (pkgs.get ⟨k, hk⟩))).err = some reason →
    pushLoop exec cfg version i pushed pkgs =
      { resp := some
          { success := false
            error := "failed to push package " ++ pkgs.get ⟨k, hk⟩ ++ ": " ++
              (strTrim (exec (i + k) (buildPushArgs cfg (pkgs.get ⟨k, hk⟩))).output ++
                ": " ++ reason)
            outputs := [("pushed_packages", OutVal.vlist (pushed ++ pkgs.take k)),
              ("failed_package", OutVal.vs (pkgs.get ⟨k, hk⟩))] }
        fault := none
        calls := (pkgs.take (k + 1)).map (buildPushArgs cfg) } := by
  intro pkgs
  induction pkgs with
  | nil =>
    intro i pushed k hk
    exact absurd hk (by simp)
  | cons pkg rest ih =>
    intro i pushed k hk reason hok hfail
    cases k with
    | zero =>
      have hfail0 : (exec i (buildPushArgs cfg pkg)).err = some reason := by
        simpa using hfail
      rw [pushLoop_cons, executePush_fail exec i cfg pkg reason hfail0]
      simp
    | succ k' =>
      have h0 : (exec i (buildPushArgs cfg pkg)).err = none := by
        have := hok 0 (Nat.succ_pos k')
        simpa using this
      rw [pushLoop_cons, executePush_ok exec i cfg pkg h0]
      have hk' : k' < rest.length := by simpa using Nat.lt_of_succ_lt_succ hk
      have hok' : ∀ j (hj : j < k'),
          (exec ((i + 1) + j) (buildPushArgs cfg (rest.get ⟨j, Nat.lt_trans hj hk'⟩))).err =
            none := by
        intro j hj
        have hx := hok (j + 1) (Nat.succ_lt_succ hj)
        rw [show i + (j + 1) = (i + 1) + j from by omega] at hx
        simpa using hx
      have hfail' :
          (exec ((i + 1) + k') (buildPushArgs cfg (rest.get ⟨k', hk'⟩))).err = some reason := by
        have hx := hfail
        rw [show i + (k' + 1) = (i + 1) + k' from by omega] at hx
        simpa using hx
      rw [ih (i + 1) (pushed ++ [pkg]) k' hk' reason hok' hfail']
      rw [show i + (k' + 1) = (i + 1) + k' from by omega]
      simp [List.append_assoc]

lemma pushLoop_shape (exec : Nat → List String → RunResult) (cfg : Config) (version : String) :
    ∀ (pkgs : List String) (i : Nat) (pushed : List String),
    (pushLoop exec cfg version i pushed pkgs).fault = none ∧
    (pushLoop exec cfg version i pushed pkgs).resp.isSome = true := by
  intro pkgs
  induction pkgs with
  | nil => intro i pushed; exact ⟨rfl, rfl⟩
  | cons pkg rest ih =>
    intro i pushed
    rw [pushLoop_cons]
    cases hep : executePush exec i cfg pkg with
    | some e => exact ⟨rfl, rfl⟩
    | none => exact ⟨(ih (i + 1) (pushed ++ [pkg])).1, (ih (i + 1) (pushed ++ [pkg])).2⟩

lemma pushPackage_push (parse : String → Except String URLParts)
    (lk : String → Except String (List IPAddr))
    (glob : String → Except String (List String)) (exec : Nat → List String → RunResult)
    (cfg : Config) (ver : String) (pkgs : List String)
    (hv : validateConfig parse lk cfg = none)
    (hf : findPackages glob cfg.PackagePath = Except.ok pkgs)
    (hne : ¬ pkgs = []) :
    pushPackage parse lk glob exec cfg ver false =
      pushLoop exec cfg (trimPrefixV ver) 0 [] pkgs := by
  simp only [pushPackage, hv, hf]
  rw [if_neg (by simp [List.length_eq_zero, hne])]
  rfl

/-- Claim C1: for every non-dry-run push over a non-empty discovered
artifact list, the artifacts are pushed strictly in order and the
external tool is invoked once per artifact until the first failure.  When
every invocation succeeds, the outcome succeeds and lists all artifacts;
when the invocation at position k fails, the outcome is a failure whose
error names the k-th artifact and joins the tool's whitespace-trimmed
combined output with the failure reason, whose structured outputs list
exactly the artifacts before position k as pushed and name the k-th as
failed, and no invocation occurs for any later artifact (the call trace
is exactly the first k+1 argument lists). -/
theorem claim_C1_push_sequencing (parse : String → Except String URLParts)
    (lk : String → Except String (List IPAddr))
    (glob : String → Except String (List String)) (exec : Nat → List String → RunResult)
    (cfg : Config) (ver : String) (pkgs : List String)
    (hv : validateConfig parse lk cfg = none)
    (hf : findPackages glob cfg.PackagePath = Except.ok pkgs)
    (hne : ¬ pkgs = []) :
    ((∀ j (hj : j < pkgs.length), (exec j (buildPushArgs cfg (pkgs.get ⟨j, hj⟩))).err = none) →
      pushPackage parse lk glob exec cfg ver false =
        { resp := some
            { success := true
              message := "Successfully pushed " ++ toString pkgs.length ++
                " package(s) to NuGet"
              outputs := [("packages", OutVal.vlist pkgs), ("source", OutVal.vs cfg.Source),
                ("version", OutVal.vs (trimPrefixV ver))] }
          fault := none
          calls := pkgs.map (buildPushArgs cfg) })
  ∧ (∀ k (hk : k < pkgs.length) (reason : String),
      (∀ j (hj : j < k),
        (exec j (buildPushArgs cfg (pkgs.get ⟨j, Nat.lt_trans hj hk⟩))).err = none) →
      (exec k (buildPushArgs cfg (pkgs.get ⟨k, hk⟩))).err = some reason →
      pushPackage parse lk glob exec cfg ver false =
        { resp := some
            { success := false
              error := "failed to push package " ++ pkgs.get ⟨k, hk⟩ ++ ": " ++
                (strTrim (exec k (buildPushArgs cfg (pkgs.get ⟨k, hk⟩))).output ++
                  ": " ++ reason)
              outputs := [("pushed_packages", OutVal.vlist (pkgs.take k)),
                ("failed_package", OutVal.vs (pkgs.get ⟨k, hk⟩))] }
          fault := none
          calls := (pkgs.take (k + 1)).map (buildPushArgs cfg) }) := by
  rw [pushPackage_push parse lk glob exec cfg ver pkgs hv hf hne]
  constructor
  · intro h
    have hz := pushLoop_ok exec cfg (trimPrefixV ver) pkgs 0 []
      (by intro j hj; rw [Nat.zero_add]; exact h j hj)
    simpa using hz
  · intro k hk reason hok hfail
    have hz := pushLoop_fail exec cfg (trimPrefixV ver) pkgs 0 [] k hk reason
      (by intro j hj; rw [Nat.zero_add]; exact hok j hj)
      (by rw [Nat.zero_add]; exact hfail)
    rw [Nat.zero_add] at hz
    simpa using hz

theorem claim_C1_push_sequencing_w :
    pushPackage (fun _ => Except.ok ⟨"https", "api.nuget.org"⟩)
      (fun _ => Except.ok [IPAddr.v4 13 107 246 64])
      (fun _ => Except.ok ["a.nupkg", "b.nupkg", "c.nupkg"])
      (fun i _ => if i = 1 then ⟨" busted \n", some "exit status 1"⟩ else ⟨"ok", none⟩)
      ⟨"key123", "https://api.nuget.org/v3/index.json", "*.nupkg", false, 300⟩ "v2.1.0" false =
    { resp := some
        { success := false
          error := "failed to push package b.nupkg: busted: exit status 1"
          outputs := [("pushed_packages", OutVal.vlist ["a.nupkg"]),
            ("failed_package", OutVal.vs "b.nupkg")] }
      fault := none
      calls :=
        [buildPushArgs ⟨"key123", "https://api.nuget.org/v3/index.json", "*.nupkg", false, 300⟩
          "a.nupkg",
         buildPushArgs ⟨"key123", "https://api.nuget.org/v3/index.json", "*.nupkg", false, 300⟩
          "b.nupkg"] } := by
  have h := (claim_C1_push_sequencing (fun _ => Except.ok ⟨"https", "api.nuget.org"⟩)
    (fun _ => Except.ok [IPAddr.v4 13 107 246 64])
    (fun _ => Except.ok ["a.nupkg", "b.nupkg", "c.nupkg"])
    (fun i _ => if i = 1 then ⟨" busted \n", some "exit status 1"⟩ else ⟨"ok", none⟩)
    ⟨"key123", "https://api.nuget.org/v3/index.json", "*.nupkg", false, 300⟩ "v2.1.0"
    ["a.nupkg", "b.nupkg", "c.nupkg"] (by decide) (by decide) (by decide)).2 1 (by decide)
    "exit status 1"
    (by
      intro j hj
      have hj0 : j = 0 := Nat.lt_one_iff.mp hj
      subst hj0
      rfl)
    (by rfl)
  exact h.trans (by decide)

/-- Claim C5: for every dry-run invocation with a valid configuration and
at least one discovered artifact, the external tool is never invoked
(the call trace is empty) and the outcome succeeds with a message
containing "Would push N package(s)" for N the artifact count, its
structured outputs carrying the source, the skip-duplicate flag, and the
release version with a leading "v" stripped. -/
theorem claim_C5_dry_run (parse : String → Except String URLParts)
    (lk : String → Except String (List IPAddr))
    (glob : String → Except String (List String)) (exec : Nat → List String → RunResult)
    (cfg : Config) (ver : String) (pkgs : List String)
    (hv : validateConfig parse lk cfg = none)
    (hf : findPackages glob cfg.PackagePath = Except.ok pkgs)
    (hne : ¬ pkgs = []) :
    pushPackage parse lk glob exec cfg ver true =
      { resp := some
          { success := true
            message := "Would push " ++ toString pkgs.length ++ " package(s) to NuGet"
            outputs := [("packages", OutVal.vlist pkgs), ("source", OutVal.vs cfg.Source),
              ("skip_duplicate", OutVal.vb cfg.SkipDuplicate),
              ("version", OutVal.vs (trimPrefixV ver))] }
        fault := none
        calls := [] }
  ∧ strContains ("Would push " ++ toString pkgs.length ++ " package(s) to NuGet")
      ("Would push " ++ toString pkgs.length ++ " package(s)") = true := by
  constructor
  · simp only [pushPackage, hv, hf]
    rw [if_neg (by simp [List.length_eq_zero, hne])]
    rfl
  · apply strContains_of_parts _ ""
      ("Would push " ++ toString pkgs.length ++ " package(s)") " to NuGet"
    simp only [String.data_append, List.nil_append, List.append_assoc, List.cons_append]

theorem claim_C5_dry_run_w :
    pushPackage (fun _ => Except.ok ⟨"https", "api.nuget.org"⟩)
      (fun _ => Except.ok [IPAddr.v4 13 107 246 64])
      (fun _ => Except.ok ["only.nupkg"]) (fun _ _ => ⟨"", none⟩)
      ⟨"key123", "https://api.nuget.org/v3/index.json", "*.nupkg", true, 300⟩ "v3.4.5" true =
    { resp := some
        { success := true
          message := "Would push 1 package(s) to NuGet"
          outputs := [("packages", OutVal.vlist ["only.nupkg"]),
            ("source", OutVal.vs "https://api.nuget.org/v3/index.json"),
            ("skip_duplicate", OutVal.vb true), ("version", OutVal.vs "3.4.5")] }
      fault := none
      calls := [] } :=
  ((claim_C5_dry_run (fun _ => Except.ok ⟨"https", "api.nuget.org"⟩)
    (fun _ => Except.ok [IPAddr.v4 13 107 246 64])
    (fun _ => Except.ok ["only.nupkg"]) (fun _ _ => ⟨"", none⟩)
    ⟨"key123", "https://api.nuget.org/v3/index.json", "*.nupkg", true, 300⟩ "v3.4.5"
    ["only.nupkg"] (by decide) (by decide) (by decide)).1).trans (by decide)

/-- Claim C6: for every invocation with a valid configuration whose
pattern expands to zero recognized artifacts, the push operation fails
with a message containing "no packages found matching pattern: P" for the
configured pattern P, and the external tool is never invoked. -/
theorem claim_C6_no_packages (parse : String → Except String URLParts)
    (lk : String → Except String (List IPAddr))
    (glob : String → Except String (List String)) (exec : Nat → List String → RunResult)
    (cfg : Config) (ver : String) (dryRun : Bool)
    (hv : validateConfig parse lk cfg = none)
    (hf : findPackages glob cfg.PackagePath = Except.ok []) :
    pushPackage parse lk glob exec cfg ver dryRun =
      { resp := some
          { success := false
            error := "no packages found matching pattern: " ++ cfg.PackagePath }
        fault := none
        calls := [] }
  ∧ strContains ("no packages found matching pattern: " ++ cfg.PackagePath)
      ("no packages found matching pattern: " ++ cfg.PackagePath) = true := by
  constructor
  · simp only [pushPackage, hv, hf]
    rfl
  · exact strContains_of_parts _ "" _ "" (by simp)

theorem claim_C6_no_packages_w :
    pushPackage (fun _ => Except.ok ⟨"https", "api.nuget.org"⟩)
      (fun _ => Except.ok [IPAddr.v4 13 107 246 64])
      (fun _ => Except.ok ["readme.txt", "notes.md"]) (fun _ _ => ⟨"", none⟩)
      ⟨"key123", "https://api.nuget.org/v3/index.json", "*.nupkg", false, 300⟩ "v1.0.0" false =
    { resp := some
        { success := false
          error := "no packages found matching pattern: " ++ "*.nupkg" }
      fault := none
      calls := [] } :=
  ((claim_C6_no_packages (fun _ => Except.ok ⟨"https", "api.nuget.org"⟩)
    (fun _ => Except.ok [IPAddr.v4 13 107 246 64])
    (fun _ => Except.ok ["readme.txt", "notes.md"]) (fun _ _ => ⟨"", none⟩)
    ⟨"key123", "https://api.nuget.org/v3/index.json", "*.nupkg", false, 300⟩ "v1.0.0" false
    (by decide) (by decide)).1).trans (by decide)

/-! ## Helper lemmas: `Execute` never faults -/

lemma pushError_ne_empty (pkg e : String) :
    ¬ ("failed to push package " ++ pkg ++ ": " ++ e) = "" := by
  intro h
  have hd := congrArg String.data h
  simp only [String.data_append] at hd
  simp at hd

lemma pushPackage_shape (parse : String → Except String URLParts)
    (lk : String → Except String (List IPAddr))
    (glob : String → Except String (List String)) (exec : Nat → List String → RunResult)
    (cfg : Config) (ver : String) (dryRun : Bool) :
    (pushPackage parse lk glob exec cfg ver dryRun).fault = none ∧
    (pushPackage parse lk glob exec cfg ver dryRun).resp.isSome = true := by
  rw [pushPackage]
  cases hv : validateConfig parse lk cfg with
  | some e => exact ⟨rfl, rfl⟩
  | none =>
    cases hf : findPackages glob cfg.PackagePath with
    | error e => exact ⟨rfl, rfl⟩
    | ok pkgs =>
      dsimp only
      by_cases hlen : pkgs.length = 0
      · rw [if_pos hlen]
        exact ⟨rfl, rfl⟩
      · rw [if_neg hlen]
        cases dryRun with
        | true => exact ⟨rfl, rfl⟩
        | false => exact pushLoop_shape exec cfg (trimPrefixV ver) pkgs 0 []

lemma Execute_pp (parse : String → Except String URLParts)
    (lk : String → Except String (List IPAddr))
    (glob : String → Except String (List String)) (exec : Nat → List String → RunResult)
    (config : String → Option RawValue) (env : String → String) (ver : String)
    (dryRun : Bool) :
    Execute parse lk glob exec hookPostPublish config env ver dryRun =
      pushPackage parse lk glob exec (parseConfig config env) ver dryRun := by
  rw [Execute, if_pos rfl]

/-- Claim C9: for every input-driven condition (validation failure of any
kind, glob error, zero matches, external push failure) the top-level
Execute operation expresses the failure inside the structured outcome —
the success flag and error text — while the Go error return is nil: for
every hook, configuration map, environment, release version, dry-run
flag and executor behaviour, Execute returns a non-nil response and a nil
fault. -/
theorem claim_C9_no_fault (parse : String → Except String URLParts)
    (lk : String → Except String (List IPAddr))
    (glob : String → Except String (List String)) (exec : Nat → List String → RunResult)
    (hook : String) (config : String → Option RawValue) (env : String → String)
    (ver : String) (dryRun : Bool) :
    (Execute parse lk glob exec hook config env ver dryRun).fault = none
  ∧ (Execute parse lk glob exec hook config env ver dryRun).resp.isSome = true
  ∧ (∀ e, hook = hookPostPublish →
      validateConfig parse lk (parseConfig config env) = some e →
      (Execute parse lk glob exec hook config env ver dryRun).resp =
        some { success := false, error := "configuration validation failed: " ++ e })
  ∧ (∀ e, hook = hookPostPublish →
      validateConfig parse lk (parseConfig config env) = none →
      findPackages glob (parseConfig config env).PackagePath = Except.error e →
      (Execute parse lk glob exec hook config env ver dryRun).resp =
        some { success := false, error := "failed to find packages: " ++ e })
  ∧ (hook = hookPostPublish →
      validateConfig parse lk (parseConfig config env) = none →
      findPackages glob (parseConfig config env).PackagePath = Except.ok [] →
      (Execute parse lk glob exec hook config env ver dryRun).resp =
        some { success := false
               error := "no packages found matching pattern: " ++
                 (parseConfig config env).PackagePath })
  ∧ (∀ pkgs k (hk : k < pkgs.length) reason,
      hook = hookPostPublish → dryRun = false →
      validateConfig parse lk (parseConfig config env) = none →
      findPackages glob (parseConfig config env).PackagePath = Except.ok pkgs →
      (∀ j (hj : j < k),
        (exec j (buildPushArgs (parseConfig config env)
          (pkgs.get ⟨j, Nat.lt_trans hj hk⟩))).err = none) →
      (exec k (buildPushArgs (parseConfig config env) (pkgs.get ⟨k, hk⟩))).err = some reason →
      ∃ r, (Execute parse lk glob exec hook config env ver dryRun).resp = some r ∧
        r.success = false ∧ ¬ r.error = "") := by
  refine ⟨?_, ?_, ?_, ?_, ?_, ?_⟩
  · by_cases hh : hook = hookPostPublish
    · subst hh
      rw [Execute_pp]
      exact (pushPackage_shape parse lk glob exec (parseConfig config env) ver dryRun).1
    · rw [Execute, if_neg hh]
  · by_cases hh : hook = hookPostPublish
    · subst hh
      rw [Execute_pp]
      exact (pushPackage_shape parse lk glob exec (parseConfig config env) ver dryRun).2
    · rw [Execute, if_neg hh]
      rfl
  · intro e hh hv
    subst hh
    rw [Execute_pp]
    simp only [pushPackage, hv]
  · intro e hh hv hf
    subst hh
    rw [Execute_pp]
    simp only [pushPackage, hv, hf]
  · intro hh hv hf
    subst hh
    rw [Execute_pp]
    simp only [pushPackage, hv, hf]
    rfl
  · intro pkgs k hk reason hh hd hv hf hok hfail
    subst hh
    subst hd
    have hne : ¬ pkgs = [] := by
      intro h
      subst h
      simp at hk
    rw [Execute_pp,
      pushPackage_push parse lk glob exec (parseConfig config env) ver pkgs hv hf hne]
    have hz := pushLoop_fail exec (parseConfig config env) (trimPrefixV ver) pkgs 0 [] k hk
      reason (by intro j hj; rw [Nat.zero_add]; exact hok j hj)
      (by rw [Nat.zero_add]; exact hfail)
    rw [hz]
    exact ⟨_, rfl, rfl, pushError_ne_empty _ _⟩

theorem claim_C9_no_fault_w :
    (Execute (fun _ => Except.ok ⟨"https", "api.nuget.org"⟩)
      (fun _ => Except.error "resolver down")
      (fun _ => Except.error "syntax error in pattern") (fun _ _ => ⟨"", none⟩)
      hookPostPublish (fun _ => none) (fun _ => "") "v1.0.0" false).fault = none ∧
    ∃ r, (Execute (fun _ => Except.ok ⟨"https", "api.nuget.org"⟩)
      (fun _ => Except.error "resolver down")
      (fun _ => Except.error "syntax error in pattern") (fun _ _ => ⟨"", none⟩)
      hookPostPublish (fun _ => none) (fun _ => "") "v1.0.0" false).resp = some r ∧
      r.success = false := by
  have h := claim_C9_no_fault (fun _ => Except.ok ⟨"https", "api.nuget.org"⟩)
    (fun _ => Except.error "resolver down")
    (fun _ => Except.error "syntax error in pattern") (fun _ _ => ⟨"", none⟩)
    hookPostPublish (fun _ => none) (fun _ => "") "v1.0.0" false
  refine ⟨h.1, ?_⟩
  have hr := h.2.2.1
    "API key is required (set api_key or NUGET_API_KEY environment variable)" rfl (by decide)
  exact ⟨_, hr, rfl⟩

end NuGetPlugin
